import Mathlib

/-!
# Shallow embedding of the Delhi Metro route-finder core

This file embeds the routing core of `delhi_metro_project.py`:

* the dataset is a list of rows with columns `Station`, `Connected_Station`, `Line`;
* the graph `G` is built by `G.add_edge(row["Station"], row["Connected_Station"], line=...)`
  for every row, with the line label normalized by `str(...).strip().title()`;
* the station list is `sorted(set(df["Station"]).union(set(df["Connected_Station"])))`;
* the "Get Route" handler guards `source == destination`, calls
  `nx.shortest_path(G, source, destination)` (unweighted breadth-first shortest path),
  renders `len(path) - 1` stops and `(len(path) - 1) * 2` minutes, shows for every station
  of the path the line of the first dataframe row joining it to some member of the path,
  and collects interchanges by comparing, for each interior index, the line of the first
  dataframe row matching each of the two adjacent pairs;
* only `nx.NetworkXNoPath` is caught; `nx.NodeNotFound` (unknown endpoint) escapes.

Machine strings are modelled as Lean `String`s; the ASCII fragment of Python's
`strip`/`title` is modelled explicitly.
-/

/-- One dataset row: columns `Station`, `Connected_Station`, `Line`. -/
structure Row where
  station : String
  connected_station : String
  line : String
deriving DecidableEq

/-- One step of Python `str.title()` (ASCII): a letter is uppercased when the previous
character is not a letter, lowercased otherwise; other characters pass through. -/
def titleChar (prevAlpha : Bool) (c : Char) : Char :=
  if c.isAlpha then (if prevAlpha then c.toLower else c.toUpper) else c

/-- Recursion for `pyTitle`, carrying whether the previous character was a letter. -/
def pyTitleGo (prevAlpha : Bool) : List Char → List Char
  | [] => []
  | c :: cs => titleChar prevAlpha c :: pyTitleGo c.isAlpha cs

/-- Python `str.title()` on the ASCII fragment. -/
def pyTitle (s : String) : String := String.mk (pyTitleGo false s.data)

/-- Python `str.strip()` on the ASCII fragment: drop whitespace from both ends. -/
def pyStrip (s : String) : String :=
  String.mk (((s.data.dropWhile Char.isWhitespace).reverse.dropWhile Char.isWhitespace).reverse)

/-- The normalization `str(x).strip().title()` applied to every line label
(source lines 92, 115, 133, 134). -/
def normalizeLabel (s : String) : String := pyTitle (pyStrip s)

/-- The boolean mask used on the dataframe for an unordered station pair, as in
`((df["Station"] == u) & (df["Connected_Station"] == v)) | (swapped)` (lines 124-131). -/
def rowMatches (u v : String) (r : Row) : Bool :=
  (r.station == u && r.connected_station == v) || (r.station == v && r.connected_station == u)

/-- The nodes of the graph `G`: every endpoint that some `G.add_edge` call introduces,
i.e. every value of either station column (line 91-93). -/
def nodesList (df : List Row) : List String :=
  df.flatMap (fun r => [r.station, r.connected_station])

/-- Adjacency of the built graph `G`: `u` and `v` are adjacent exactly when some dataset
row connects them (in either orientation), since each row adds the edge `{u, v}`. -/
def adjB (df : List Row) (u v : String) : Bool := df.any (rowMatches u v)

/-- Adjacency as a relation (for chains and walks). -/
def adjP (df : List Row) (u v : String) : Prop := adjB df u v = true

instance (df : List Row) : DecidableRel (adjP df) :=
  fun u v => inferInstanceAs (Decidable (adjB df u v = true))

/-- The neighbors of `u` in `G`, read off the dataset rows. -/
def neighborsOf (df : List Row) (u : String) : List String :=
  df.filterMap (fun r =>
    if r.station == u then some r.connected_station
    else if r.connected_station == u then some r.station
    else none)

/-- Executable test that consecutive elements of a list are adjacent in the graph. -/
def chainAdj (df : List Row) : List String → Bool
  | u :: v :: rest => adjB df u v && chainAdj df (v :: rest)
  | _ => true

/-- `isWalk df p s t`: `p` is a walk of the graph from `s` to `t` — nonempty, first
element `s`, last element `t`, consecutive elements adjacent. -/
def isWalk (df : List Row) (p : List String) (s t : String) : Prop :=
  p.head? = some s ∧ p.getLast? = some t ∧ chainAdj df p = true

instance (df : List Row) (p : List String) (s t : String) : Decidable (isWalk df p s t) :=
  inferInstanceAs
    (Decidable (p.head? = some s ∧ p.getLast? = some t ∧ chainAdj df p = true))

/-- Breadth-first reachability within a hop budget: `reachIn df n s t` holds when some
walk of at most `n` hops joins `s` to `t`. This is the layer structure of the
breadth-first search performed by `nx.shortest_path` with no weights (line 107). -/
def reachIn (df : List Row) : Nat → String → String → Bool
  | 0, s, t => s == t
  | n + 1, s, t => s == t || (neighborsOf df s).any (fun u => reachIn df n u t)

/-- Extract one shortest walk: from `s`, step to a neighbor that still reaches `t`
within the remaining budget. Models the path reconstruction of the breadth-first
search in `nx.shortest_path` (the tie-break among equal-length paths is
implementation-defined there and not part of the contract). -/
def buildPath (df : List Row) (t : String) : Nat → String → Option (List String)
  | 0, s => if s = t then some [s] else none
  | n + 1, s =>
    if s = t then some [s]
    else
      match (neighborsOf df s).find? (fun u => reachIn df n u t) with
      | some u => (buildPath df t n u).map (fun p => s :: p)
      | none => none

/-- Smallest hop count at which `t` becomes reachable from `s`, scanning
`n = start, start+1, ...` with the given fuel. -/
def searchDist (df : List Row) (s t : String) : Nat → Nat → Option Nat
  | 0, _ => none
  | fuel + 1, n => if reachIn df n s t then some n else searchDist df s t fuel (n + 1)

/-- Outcome of `nx.shortest_path(G, s, t)`: a path, the `NetworkXNoPath` exception, or
the `NodeNotFound` exception when an endpoint is not a node of `G`. -/
inductive SPResult where
  | path : List String → SPResult
  | noPath : SPResult
  | nodeNotFound : SPResult
deriving DecidableEq

/-- Model of `nx.shortest_path(G, source, target)` with default (unweighted) cost:
raises `NodeNotFound` when an endpoint is not a node, otherwise performs a
breadth-first search and returns a minimum-hop path, or raises `NetworkXNoPath`. -/
def shortestPathRes (df : List Row) (s t : String) : SPResult :=
  if s ∈ nodesList df ∧ t ∈ nodesList df then
    match searchDist df s t ((nodesList df).length + 1) 0 with
    | some n =>
      match buildPath df t n s with
      | some p => SPResult.path p
      | none => SPResult.noPath
    | none => SPResult.noPath
  else SPResult.nodeNotFound

/-- Outcome of the "Get Route" button handler (lines 102-146). `sameStation` is the
`st.warning` of the guard, `noPath` the `st.error` of the `except nx.NetworkXNoPath`
clause; `uncaughtNodeNotFound` is the `nx.NodeNotFound` exception, which the handler
does not catch (`NodeNotFound` is not a subclass of `NetworkXNoPath`). -/
inductive RouteResult where
  | sameStation : RouteResult
  | success : List String → RouteResult
  | noPath : RouteResult
  | uncaughtNodeNotFound : RouteResult
deriving DecidableEq

/-- The "Get Route" handler: guard `source == destination` (line 103), then the
`try`/`except` around `nx.shortest_path` (lines 106-146). -/
def getRoute (df : List Row) (source destination : String) : RouteResult :=
  if source = destination then RouteResult.sameStation
  else
    match shortestPathRes df source destination with
    | SPResult.path p => RouteResult.success p
    | SPResult.noPath => RouteResult.noPath
    | SPResult.nodeNotFound => RouteResult.uncaughtNodeNotFound

/-- The number rendered by `st.success(f"... Total stops: {len(path) - 1}")` (line 108). -/
def totalStopsMsg (p : List String) : Nat := p.length - 1

/-- The number rendered by `st.info(f"Estimated Time: {(len(path) - 1) * 2} minutes")`
(line 121). -/
def estTimeMsg (p : List String) : Nat := (p.length - 1) * 2

/-- Comparison used by `sorted` on strings. -/
def stringLe (a b : String) : Bool := decide (a ≤ b)

/-- `stations = sorted(set(df["Station"]).union(set(df["Connected_Station"])))` (line 95). -/
def listStations (df : List Row) : List String :=
  ((df.map (fun r => r.station)) ++ (df.map (fun r => r.connected_station))).dedup.mergeSort stringLe

/-- The dataframe lookup for an unordered pair: the `Line` values of the rows selected by
`rowMatches`, first one taken if any (`.values`, then `[0]`; lines 124-131). -/
def pairLineLookup (df : List Row) (u v : String) : Option String :=
  ((df.filter (rowMatches u v)).map (fun r => r.line)).head?

/-- The mask of lines 111-114: rows joining `station` to *some member of the path*
(in either orientation), not specifically to its path neighbors. -/
def rowTouches (p : List String) (station : String) (r : Row) : Bool :=
  (r.station == station && p.contains r.connected_station)
    || (r.connected_station == station && p.contains r.station)

/-- `line_info = df[mask]["Line"].values` (lines 111-114). -/
def lineInfo (df : List Row) (p : List String) (station : String) : List String :=
  (df.filter (rowTouches p station)).map (fun r => r.line)

/-- `line_str = str(line_info[0]).strip().title() if len(line_info) > 0 else "N/A"`
(line 115): the label displayed next to `station` in the rendered path. -/
def displayedLabel (df : List Row) (p : List String) (station : String) : String :=
  match (lineInfo df p station).head? with
  | some l => normalizeLabel l
  | none => "N/A"

/-- One iteration of the interchange loop (lines 124-136) at interior index `i`:
look up the first dataframe row for each of the pairs `(p[i-1], p[i])` and
`(p[i], p[i+1])`; if both lookups are nonempty and the normalized labels differ,
emit `(p[i], curr, next)`. -/
def interchangeStep (df : List Row) (p : List String) (i : Nat) :
    Option (String × String × String) :=
  match pairLineLookup df (p.getD (i - 1) "") (p.getD i ""),
        pairLineLookup df (p.getD i "") (p.getD (i + 1) "") with
  | some c, some n =>
    if normalizeLabel c ≠ normalizeLabel n then some (p.getD i "", normalizeLabel c, normalizeLabel n) else none
  | _, _ => none

/-- The interchange list built by `for i in range(1, len(path) - 1)` (lines 122-136). -/
def interchanges (df : List Row) (p : List String) : List (String × String × String) :=
  (List.range' 1 (p.length - 2)).filterMap (interchangeStep df p)

/-- The normalized line label the Annotator resolves for the consecutive pair
`(p[j], p[j+1])` of a path (total on valid indices of a walk, where the lookup
always finds a row). -/
def pathEdgeLabel (df : List Row) (p : List String) (j : Nat) : String :=
  normalizeLabel ((pairLineLookup df (p.getD j "") (p.getD (j + 1) "")).getD "")

/-- Modelled from the spec: interchange detection as §4.4 words it — for every interior
index `1 ≤ i ≤ len - 2`, emit `(p[i], before, after)` exactly when the normalized label
of the edge `(p[i-1], p[i])` differs from that of the edge `(p[i], p[i+1])`. -/
def specInterchanges (df : List Row) (p : List String) : List (String × String × String) :=
  (List.range' 1 (p.length - 2)).filterMap (fun i =>
    if pathEdgeLabel df p (i - 1) ≠ pathEdgeLabel df p i
    then some (p.getD i "", pathEdgeLabel df p (i - 1), pathEdgeLabel df p i)
    else none)

/-- Label stored on edge `{u, v}` of `G` after all `G.add_edge(..., line=...)` calls
(lines 90-93): each matching row overwrites the attribute, so the last row wins. -/
def edgeLabel (df : List Row) (u v : String) : Option String :=
  df.foldl (fun acc r => if rowMatches u v r then some (normalizeLabel r.line) else acc) none

/-! ## Concrete sample datasets (spec §8 scenarios) -/

/-- Spec §8 scenario: edges A-B (red), B-C (red), C-D (blue). -/
def sampleChain : List Row := [⟨"A", "B", "red"⟩, ⟨"B", "C", "red"⟩, ⟨"C", "D", "blue"⟩]

/-- Two disconnected edges: A-B (red) and C-D (blue). -/
def sampleDisc : List Row := [⟨"A", "B", "red"⟩, ⟨"C", "D", "blue"⟩]

/-- The rows of a two-edge path listed out of path order: B-C (blue) before A-B (red). -/
def sampleOut : List Row := [⟨"B", "C", "blue"⟩, ⟨"A", "B", "red"⟩]

/-- A duplicated station pair carrying two different labels: A-B (red), then A-B (blue). -/
def sampleDup : List Row := [⟨"A", "B", "red"⟩, ⟨"A", "B", "blue"⟩]

/-! ## Basic lemmas about adjacency, nodes and walks -/

theorem chainAdj_iff (df : List Row) :
    ∀ p : List String, chainAdj df p = true ↔ List.Chain' (adjP df) p
  | [] => by simp [chainAdj]
  | [u] => by simp [chainAdj]
  | u :: v :: rest => by
    rw [chainAdj, Bool.and_eq_true, List.chain'_cons, chainAdj_iff df (v :: rest)]
    exact Iff.rfl

theorem adjB_symm (df : List Row) (u v : String) : adjB df u v = adjB df v u := by
  simp only [adjB]
  congr 1
  funext r
  simp only [rowMatches]
  rw [Bool.or_comm]

theorem mem_nodesList_of_adjB (df : List Row) (u v : String) (h : adjB df u v = true) :
    u ∈ nodesList df ∧ v ∈ nodesList df := by
  simp only [adjB, List.any_eq_true, rowMatches, Bool.or_eq_true, Bool.and_eq_true,
    beq_iff_eq] at h
  obtain ⟨r, hr, h | h⟩ := h <;>
    constructor <;> simp only [nodesList, List.mem_flatMap] <;>
      exact ⟨r, hr, by simp [h.1, h.2]⟩

theorem mem_neighborsOf_iff (df : List Row) (u v : String) :
    v ∈ neighborsOf df u ↔ adjB df u v = true := by
  rw [neighborsOf, List.mem_filterMap, adjB, List.any_eq_true]
  constructor
  · rintro ⟨r, hr, h⟩
    refine ⟨r, hr, ?_⟩
    simp only [rowMatches, Bool.or_eq_true, Bool.and_eq_true, beq_iff_eq]
    by_cases h1 : r.station = u
    · rw [if_pos (by simp [h1])] at h
      exact Or.inl ⟨h1, by simpa using h⟩
    · rw [if_neg (by simp [h1])] at h
      by_cases h2 : r.connected_station = u
      · rw [if_pos (by simp [h2])] at h
        exact Or.inr ⟨by simpa using h, h2⟩
      · rw [if_neg (by simp [h2])] at h
        exact absurd h (by simp)
  · rintro ⟨r, hr, h⟩
    refine ⟨r, hr, ?_⟩
    simp only [rowMatches, Bool.or_eq_true, Bool.and_eq_true, beq_iff_eq] at h
    rcases h with ⟨hsu, hcv⟩ | ⟨hsv, hcu⟩
    · rw [if_pos (by simp [hsu]), hcv]
    · by_cases h1 : r.station = u
      · have huv : u = v := by rw [← hsv, h1]
        subst huv
        rw [if_pos (by simp [h1]), hcu]
      · rw [if_neg (by simp [h1]), if_pos (by simp [hcu]), hsv]

theorem chainAdj_cons_tail (df : List Row) (u : String) (rest : List String)
    (h : chainAdj df (u :: rest) = true) : chainAdj df rest = true := by
  cases rest with
  | nil => rfl
  | cons v rest' =>
    rw [chainAdj, Bool.and_eq_true] at h
    exact h.2

theorem chainAdj_cons_adj (df : List Row) (u v : String) (rest : List String)
    (h : chainAdj df (u :: v :: rest) = true) : adjB df u v = true := by
  rw [chainAdj, Bool.and_eq_true] at h
  exact h.1

/-- Every element after the head of an adjacency chain is a node of the graph. -/
theorem chain_tail_mem_nodes (df : List Row) :
    ∀ (u : String) (rest : List String), chainAdj df (u :: rest) = true →
      ∀ x ∈ rest, x ∈ nodesList df
  | _, [], _, x, hx => absurd hx (List.not_mem_nil x)
  | u, v :: rest', h, x, hx => by
    have hadj : adjB df u v = true := chainAdj_cons_adj df u v rest' h
    rcases List.mem_cons.mp hx with rfl | hx'
    · exact (mem_nodesList_of_adjB df u x hadj).2
    · exact chain_tail_mem_nodes df v rest' (chainAdj_cons_tail df u (v :: rest') h) x hx'

/-- All elements of a walk from `s` lie in `s :: nodesList df`. -/
theorem walk_subset (df : List Row) (p : List String) (s t : String)
    (h : isWalk df p s t) : ∀ x ∈ p, x ∈ s :: nodesList df := by
  obtain ⟨hh, _, hc⟩ := h
  cases p with
  | nil => simp at hh
  | cons u rest =>
    have hu : u = s := by simpa using hh
    subst hu
    intro x hx
    rcases List.mem_cons.mp hx with rfl | hx'
    · exact List.mem_cons_self x (nodesList df)
    · exact List.mem_cons_of_mem u (chain_tail_mem_nodes df u rest hc x hx')

/-! ## Breadth-first search: soundness and completeness of the layer structure -/

theorem reachIn_of_walk (df : List Row) :
    ∀ (p : List String) (s t : String), isWalk df p s t → reachIn df (p.length - 1) s t = true
  | [], _, _, h => by simp [isWalk] at h
  | [u], s, t, h => by
    obtain ⟨hh, hl, _⟩ := h
    simp only [List.head?_cons, Option.some.injEq] at hh
    simp only [List.getLast?_singleton, Option.some.injEq] at hl
    subst hh; subst hl
    simp [reachIn]
  | u :: v :: rest, s, t, h => by
    obtain ⟨hh, hl, hc⟩ := h
    simp only [List.head?_cons, Option.some.injEq] at hh
    subst hh
    have hadj := chainAdj_cons_adj df u v rest hc
    have hwalk : isWalk df (v :: rest) v t := by
      refine ⟨rfl, ?_, chainAdj_cons_tail df u (v :: rest) hc⟩
      rw [← hl, List.getLast?_cons_cons]
    have ih := reachIn_of_walk df (v :: rest) v t hwalk
    show reachIn df (rest.length + 1) u t = true
    rw [reachIn, Bool.or_eq_true]
    refine Or.inr (List.any_eq_true.mpr ⟨v, ?_, ?_⟩)
    · exact (mem_neighborsOf_iff df u v).mpr hadj
    · simpa using ih

theorem reachIn_succ (df : List Row) :
    ∀ (n : Nat) (s t : String), reachIn df n s t = true → reachIn df (n + 1) s t = true
  | 0, s, t, h => by
    rw [reachIn] at h
    rw [reachIn, Bool.or_eq_true]
    exact Or.inl h
  | n + 1, s, t, h => by
    rw [reachIn, Bool.or_eq_true] at h
    rw [reachIn, Bool.or_eq_true]
    rcases h with h | h
    · exact Or.inl h
    · obtain ⟨u, hu, hr⟩ := List.any_eq_true.mp h
      exact Or.inr (List.any_eq_true.mpr ⟨u, hu, reachIn_succ df n u t hr⟩)

theorem reachIn_mono (df : List Row) (s t : String) {n m : Nat} (hnm : n ≤ m)
    (h : reachIn df n s t = true) : reachIn df m s t = true := by
  induction hnm with
  | refl => exact h
  | step _ ih => exact reachIn_succ df _ s t ih

theorem buildPath_walk (df : List Row) (t : String) :
    ∀ (n : Nat) (s : String) (p : List String), buildPath df t n s = some p →
      isWalk df p s t ∧ p.length ≤ n + 1
  | 0, s, p, h => by
    rw [buildPath] at h
    by_cases hst : s = t
    · rw [if_pos hst] at h
      obtain rfl : [s] = p := Option.some.inj h
      subst hst
      exact ⟨⟨rfl, by simp, rfl⟩, le_refl 1⟩
    · rw [if_neg hst] at h
      exact absurd h.symm (Option.some_ne_none p)
  | n + 1, s, p, h => by
    rw [buildPath] at h
    by_cases hst : s = t
    · rw [if_pos hst] at h
      obtain rfl : [s] = p := Option.some.inj h
      subst hst
      exact ⟨⟨rfl, by simp, rfl⟩, by simp⟩
    · rw [if_neg hst] at h
      cases hfind : (neighborsOf df s).find? (fun u => reachIn df n u t) with
      | none => rw [hfind] at h; exact absurd h.symm (Option.some_ne_none p)
      | some u =>
        rw [hfind] at h
        obtain ⟨q, hq, rfl⟩ := Option.map_eq_some'.mp h
        obtain ⟨⟨hqh, hql, hqc⟩, hqlen⟩ := buildPath_walk df t n u q hq
        have hadj : adjB df s u = true :=
          (mem_neighborsOf_iff df s u).mp (List.mem_of_find?_eq_some hfind)
        cases q with
        | nil => simp at hqh
        | cons v q' =>
          obtain rfl : v = u := by simpa using hqh
          refine ⟨⟨rfl, ?_, ?_⟩, ?_⟩
          · rw [List.getLast?_cons_cons]
            exact hql
          · rw [chainAdj, Bool.and_eq_true]
            exact ⟨hadj, hqc⟩
          · simp only [List.length_cons] at hqlen ⊢
            omega

theorem buildPath_isSome (df : List Row) (t : String) :
    ∀ (n : Nat) (s : String), reachIn df n s t = true → (buildPath df t n s).isSome = true
  | 0, s, h => by
    rw [reachIn] at h
    rw [buildPath, if_pos (by simpa using h)]
    rfl
  | n + 1, s, h => by
    rw [buildPath]
    split_ifs with hst
    · rfl
    · rw [reachIn, Bool.or_eq_true] at h
      rcases h with h | h
      · exact absurd (by simpa using h) hst
      · obtain ⟨u, hu, hr⟩ := List.any_eq_true.mp h
        cases hfind : (neighborsOf df s).find? (fun u => reachIn df n u t) with
        | none =>
          exact absurd hr (by simpa using List.find?_eq_none.mp hfind u hu)
        | some u' =>
          show (Option.map (fun p => s :: p) (buildPath df t n u')).isSome = true
          have hr' : reachIn df n u' t = true := by simpa using List.find?_some hfind
          have hbs := buildPath_isSome df t n u' hr'
          cases hbp : buildPath df t n u' with
          | none => rw [hbp] at hbs; exact absurd hbs (by simp)
          | some q => rfl

theorem searchDist_some (df : List Row) (s t : String) :
    ∀ (fuel start n : Nat), searchDist df s t fuel start = some n →
      start ≤ n ∧ reachIn df n s t = true ∧
        ∀ m, start ≤ m → m < n → reachIn df m s t = false
  | 0, _, _, h => by simp [searchDist] at h
  | fuel + 1, start, n, h => by
    rw [searchDist] at h
    split_ifs at h with hreach
    · obtain rfl : start = n := by simpa using h
      exact ⟨le_refl _, hreach, fun m h1 h2 => absurd (lt_of_le_of_lt h1 h2) (lt_irrefl _)⟩
    · obtain ⟨h1, h2, h3⟩ := searchDist_some df s t fuel (start + 1) n h
      refine ⟨by omega, h2, fun m hm1 hm2 => ?_⟩
      rcases Nat.eq_or_lt_of_le hm1 with rfl | hlt
      · exact Bool.eq_false_iff.mpr hreach
      · exact h3 m hlt hm2

theorem searchDist_none (df : List Row) (s t : String) :
    ∀ (fuel start : Nat), searchDist df s t fuel start = none →
      ∀ m, start ≤ m → m < start + fuel → reachIn df m s t = false
  | 0, start, _, m, h1, h2 => absurd h2 (by omega)
  | fuel + 1, start, h, m, h1, h2 => by
    rw [searchDist] at h
    split_ifs at h with hreach
    rcases Nat.eq_or_lt_of_le h1 with rfl | hlt
    · exact Bool.eq_false_iff.mpr hreach
    · exact searchDist_none df s t fuel (start + 1) h m hlt (by omega)

/-! ## Every walk can be shortened to a duplicate-free walk, bounding the search depth -/

theorem chainAdj_append_right (df : List Row) :
    ∀ (l₁ l₂ : List String), chainAdj df (l₁ ++ l₂) = true → chainAdj df l₂ = true
  | [], _, h => h
  | _ :: l₁', l₂, h => chainAdj_append_right df l₁' l₂ (chainAdj_cons_tail df _ _ h)

theorem walk_length_pos (df : List Row) (p : List String) (s t : String)
    (h : isWalk df p s t) : 1 ≤ p.length := by
  obtain ⟨hh, -, -⟩ := h
  obtain ⟨ys, rfl⟩ := List.head?_eq_some_iff.mp hh
  simp

theorem walk_shorten (df : List Row) :
    ∀ (N : Nat) (p : List String) (s t : String), p.length ≤ N → isWalk df p s t →
      ∃ q, isWalk df q s t ∧ q.Nodup ∧ q.length ≤ p.length ∧ ∀ x ∈ q, x ∈ p
  | 0, p, s, t, hN, hw => by
    have := walk_length_pos df p s t hw
    omega
  | N + 1, p, s, t, hN, hw => by
    obtain ⟨hh, hl, hc⟩ := hw
    obtain ⟨rest, rfl⟩ := List.head?_eq_some_iff.mp hh
    by_cases hmem : s ∈ rest
    · obtain ⟨c, d, rfl⟩ := List.append_of_mem hmem
      have hq0 : isWalk df (s :: d) s t := by
        refine ⟨rfl, ?_, ?_⟩
        · rw [show s :: (c ++ s :: d) = (s :: c) ++ (s :: d) by simp] at hl
          rw [← List.getLast?_append_of_ne_nil (s :: c) (List.cons_ne_nil s d), hl]
        · exact chainAdj_append_right df (s :: c) (s :: d)
            (by simpa using hc)
      have hlen0 : (s :: d).length < (s :: (c ++ s :: d)).length := by
        simp only [List.length_cons, List.length_append]
        omega
      obtain ⟨q, hq, hnd, hql, hqs⟩ :=
        walk_shorten df N (s :: d) s t (by simp at hN hlen0 ⊢; omega) hq0
      refine ⟨q, hq, hnd, by omega, fun x hx => ?_⟩
      rcases List.mem_cons.mp (hqs x hx) with rfl | hxd
      · exact List.mem_cons_self x _
      · exact List.mem_cons_of_mem s (by simp [hxd])
    · cases rest with
      | nil => exact ⟨[s], ⟨rfl, hl, rfl⟩, List.nodup_singleton s, le_refl 1, fun x hx => hx⟩
      | cons v rest' =>
        have hwrest : isWalk df (v :: rest') v t := by
          refine ⟨rfl, ?_, chainAdj_cons_tail df s (v :: rest') hc⟩
          rw [List.getLast?_cons_cons] at hl
          exact hl
        obtain ⟨q', hq', hnd', hql', hqs'⟩ :=
          walk_shorten df N (v :: rest') v t (by simp at hN ⊢; omega) hwrest
        obtain ⟨hh', hl', hc'⟩ := hq'
        obtain ⟨q'', rfl⟩ := List.head?_eq_some_iff.mp hh'
        refine ⟨s :: v :: q'', ⟨rfl, ?_, ?_⟩, ?_, ?_, ?_⟩
        · rw [List.getLast?_cons_cons, hl']
        · rw [chainAdj, Bool.and_eq_true]
          exact ⟨chainAdj_cons_adj df s v rest' hc, hc'⟩
        · rw [List.nodup_cons]
          exact ⟨fun hsin => hmem (hqs' s hsin), hnd'⟩
        · simp only [List.length_cons] at hql' ⊢
          omega
        · intro x hx
          rcases List.mem_cons.mp hx with rfl | hx'
          · exact List.mem_cons_self x _
          · exact List.mem_cons_of_mem s (hqs' x hx')

/-- Any reachable pair is joined by a walk of length at most `|nodesList| + 1`. -/
theorem exists_short_walk (df : List Row) (p : List String) (s t : String)
    (hw : isWalk df p s t) :
    ∃ q, isWalk df q s t ∧ q.length ≤ (nodesList df).length + 1 := by
  obtain ⟨q, hq, hnd, -, -⟩ := walk_shorten df p.length p s t (le_refl _) hw
  refine ⟨q, hq, ?_⟩
  have hsub : ∀ x ∈ q, x ∈ s :: nodesList df := walk_subset df q s t hq
  have := (List.Nodup.subperm hnd hsub).length_le
  simpa using this

/-! ## Correctness of the modelled `nx.shortest_path` call -/

theorem shortestPathRes_success (df : List Row) (s t : String)
    (hs : s ∈ nodesList df) (ht : t ∈ nodesList df) (hw : ∃ p, isWalk df p s t) :
    ∃ p, shortestPathRes df s t = SPResult.path p ∧ isWalk df p s t ∧
      ∀ q, isWalk df q s t → p.length ≤ q.length := by
  obtain ⟨w, hwalk⟩ := hw
  obtain ⟨w', hw', hlen'⟩ := exists_short_walk df w s t hwalk
  have hwpos := walk_length_pos df w' s t hw'
  have hreach : reachIn df (w'.length - 1) s t = true := reachIn_of_walk df w' s t hw'
  rw [shortestPathRes, if_pos ⟨hs, ht⟩]
  cases hsd : searchDist df s t ((nodesList df).length + 1) 0 with
  | none =>
    have hfalse := searchDist_none df s t ((nodesList df).length + 1) 0 hsd
      (w'.length - 1) (Nat.zero_le _) (by omega)
    rw [hfalse] at hreach
    exact absurd hreach (by simp)
  | some n =>
    dsimp only
    obtain ⟨-, hre, hmin⟩ := searchDist_some df s t ((nodesList df).length + 1) 0 n hsd
    have hbs := buildPath_isSome df t n s hre
    cases hbp : buildPath df t n s with
    | none => rw [hbp] at hbs; exact absurd hbs (by simp)
    | some p =>
      obtain ⟨hpw, hplen⟩ := buildPath_walk df t n s p hbp
      refine ⟨p, rfl, hpw, fun q hq => ?_⟩
      have hqr : reachIn df (q.length - 1) s t = true := reachIn_of_walk df q s t hq
      have hqpos := walk_length_pos df q s t hq
      by_contra hcon
      push_neg at hcon
      have hqlt : q.length - 1 < n := by omega
      have := hmin (q.length - 1) (Nat.zero_le _) hqlt
      rw [this] at hqr
      exact absurd hqr (by simp)

theorem shortestPathRes_noPath (df : List Row) (s t : String)
    (hs : s ∈ nodesList df) (ht : t ∈ nodesList df) (hnw : ∀ p, ¬ isWalk df p s t) :
    shortestPathRes df s t = SPResult.noPath := by
  rw [shortestPathRes, if_pos ⟨hs, ht⟩]
  cases hsd : searchDist df s t ((nodesList df).length + 1) 0 with
  | none => rfl
  | some n =>
    dsimp only
    obtain ⟨-, hre, -⟩ := searchDist_some df s t ((nodesList df).length + 1) 0 n hsd
    cases hbp : buildPath df t n s with
    | none => rfl
    | some p => exact absurd (buildPath_walk df t n s p hbp).1 (hnw p)

theorem shortestPathRes_path_walk (df : List Row) (s t : String) (p : List String)
    (h : shortestPathRes df s t = SPResult.path p) : isWalk df p s t := by
  rw [shortestPathRes] at h
  by_cases hmem : s ∈ nodesList df ∧ t ∈ nodesList df
  · rw [if_pos hmem] at h
    cases hsd : searchDist df s t ((nodesList df).length + 1) 0 with
    | none => rw [hsd] at h; exact absurd h (by simp)
    | some n =>
      rw [hsd] at h
      dsimp only at h
      cases hbp : buildPath df t n s with
      | none => rw [hbp] at h; exact absurd h (by simp)
      | some q =>
        rw [hbp] at h
        have hqp : q = p := by simpa using h
        subst hqp
        exact (buildPath_walk df t n s q hbp).1
  · rw [if_neg hmem] at h
    exact absurd h (by simp)

theorem getRoute_success_walk (df : List Row) (s t : String) (p : List String)
    (h : getRoute df s t = RouteResult.success p) : isWalk df p s t := by
  rw [getRoute] at h
  by_cases hst : s = t
  · rw [if_pos hst] at h
    exact absurd h (by simp)
  · rw [if_neg hst] at h
    cases hspr : shortestPathRes df s t with
    | path q =>
      rw [hspr] at h
      have hqp : q = p := by simpa using h
      subst hqp
      exact shortestPathRes_path_walk df s t q hspr
    | noPath => rw [hspr] at h; exact absurd h (by simp)
    | nodeNotFound => rw [hspr] at h; exact absurd h (by simp)

/-! ## Remaining auxiliary lemmas -/

theorem shortestPathRes_nodeNotFound (df : List Row) (s t : String)
    (h : ¬ (s ∈ nodesList df ∧ t ∈ nodesList df)) :
    shortestPathRes df s t = SPResult.nodeNotFound := by
  rw [shortestPathRes, if_neg h]

/-- If the bounded reachability test fails at the node-count bound, no walk exists. -/
theorem no_walk_of_reachIn_false (df : List Row) (s t : String)
    (h : reachIn df ((nodesList df).length) s t = false) :
    ∀ p, ¬ isWalk df p s t := by
  intro p hp
  obtain ⟨q, hq, hlen⟩ := exists_short_walk df p s t hp
  have hpos := walk_length_pos df q s t hq
  have hre : reachIn df (q.length - 1) s t = true := reachIn_of_walk df q s t hq
  have hmono : reachIn df ((nodesList df).length) s t = true :=
    reachIn_mono df s t (by omega) hre
  rw [h] at hmono
  exact absurd hmono (by simp)

theorem chainAdj_getD (df : List Row) :
    ∀ (p : List String) (j : Nat), chainAdj df p = true → j + 1 < p.length →
      adjB df (p.getD j "") (p.getD (j + 1) "") = true
  | [], j, _, hj => by simp at hj
  | [u], j, _, hj => by simp at hj
  | u :: v :: rest, 0, h, _ => by
    rw [List.getD_cons_zero, List.getD_cons_succ, List.getD_cons_zero]
    exact chainAdj_cons_adj df u v rest h
  | u :: v :: rest, j + 1, h, hj => by
    rw [List.getD_cons_succ, List.getD_cons_succ]
    exact chainAdj_getD df (v :: rest) j (chainAdj_cons_tail df u (v :: rest) h)
      (by simp only [List.length_cons] at hj ⊢; omega)

theorem pairLineLookup_isSome_of_adjB (df : List Row) (u v : String)
    (h : adjB df u v = true) : (pairLineLookup df u v).isSome = true := by
  rw [adjB, List.any_eq_true] at h
  obtain ⟨r, hr, hm⟩ := h
  rw [pairLineLookup]
  cases hh : ((df.filter (rowMatches u v)).map (fun r => r.line)).head? with
  | some l => rfl
  | none =>
    rw [List.head?_eq_none_iff, List.map_eq_nil_iff, List.filter_eq_nil_iff] at hh
    exact absurd hm (by simpa using hh r hr)

theorem filter_head?_eq_find? {α : Type} (q : α → Bool) :
    ∀ l : List α, (l.filter q).head? = l.find? q
  | [] => rfl
  | x :: l => by
    by_cases h : q x = true
    · rw [List.filter_cons_of_pos h, List.find?_cons_of_pos l h, List.head?_cons]
    · rw [List.filter_cons_of_neg h, List.find?_cons_of_neg l h]
      exact filter_head?_eq_find? q l

/-- A `filterMap` over a duplicate-free list in which exactly one element produces a
value returns precisely that value. -/
theorem filterMap_eq_single {α β : Type} (f : α → Option β) :
    ∀ (l : List α) (a : α) (b : β), l.Nodup → a ∈ l → f a = some b →
      (∀ x ∈ l, x ≠ a → f x = none) → l.filterMap f = [b]
  | [], a, b, _, ha, _, _ => absurd ha (List.not_mem_nil a)
  | x :: l, a, b, hnd, ha, hfa, hother => by
    rw [List.nodup_cons] at hnd
    rcases List.mem_cons.mp ha with rfl | ha'
    · rw [List.filterMap_cons, hfa]
      have : l.filterMap f = [] := by
        rw [List.filterMap_eq_nil_iff]
        intro y hy
        exact hother y (List.mem_cons_of_mem _ hy) (fun hya => hnd.1 (hya ▸ hy))
      rw [this]
    · have hxa : x ≠ a := fun hxa => hnd.1 (hxa ▸ ha')
      rw [List.filterMap_cons, hother x (List.mem_cons_self x l) hxa]
      exact filterMap_eq_single f l a b hnd.2 ha' hfa
        (fun y hy => hother y (List.mem_cons_of_mem x hy))

/-- The attribute fold of the graph builder keeps the *last* matching row. -/
theorem edgeLabel_eq_reverse_find? (df : List Row) (u v : String) :
    edgeLabel df u v =
      (df.reverse.find? (rowMatches u v)).map (fun r => normalizeLabel r.line) := by
  induction df using List.reverseRecOn with
  | nil => rfl
  | append_singleton l r ih =>
    rw [edgeLabel, List.foldl_append, List.reverse_append]
    show (if rowMatches u v r then some (normalizeLabel r.line) else edgeLabel l u v) =
      (([r] ++ l.reverse).find? (rowMatches u v)).map (fun r => normalizeLabel r.line)
    by_cases h : rowMatches u v r = true
    · rw [if_pos h, List.singleton_append, List.find?_cons_of_pos _ h]
      rfl
    · rw [if_neg h, List.singleton_append, List.find?_cons_of_neg _ h, ih]

/-- On a path whose consecutive elements are adjacent, one iteration of the interchange
loop agrees with the spec-side description: both lookups succeed, and an interchange is
emitted exactly when the two normalized labels differ. -/
theorem interchangeStep_eq_spec (df : List Row) (p : List String) (i : Nat)
    (h1 : 1 ≤ i) (h2 : i + 1 < p.length) (hc : chainAdj df p = true) :
    interchangeStep df p i =
      (if pathEdgeLabel df p (i - 1) ≠ pathEdgeLabel df p i
       then some (p.getD i "", pathEdgeLabel df p (i - 1), pathEdgeLabel df p i)
       else none) := by
  have ha1 : adjB df (p.getD (i - 1) "") (p.getD i "") = true := by
    have := chainAdj_getD df p (i - 1) hc (by omega)
    rwa [show i - 1 + 1 = i by omega] at this
  have ha2 : adjB df (p.getD i "") (p.getD (i + 1) "") = true := chainAdj_getD df p i hc h2
  have hs1 := pairLineLookup_isSome_of_adjB df _ _ ha1
  have hs2 := pairLineLookup_isSome_of_adjB df _ _ ha2
  rw [interchangeStep]
  cases hl1 : pairLineLookup df (p.getD (i - 1) "") (p.getD i "") with
  | none => rw [hl1] at hs1; exact absurd hs1 (by simp)
  | some c =>
    cases hl2 : pairLineLookup df (p.getD i "") (p.getD (i + 1) "") with
    | none => rw [hl2] at hs2; exact absurd hs2 (by simp)
    | some n =>
      have e1 : pathEdgeLabel df p (i - 1) = normalizeLabel c := by
        rw [pathEdgeLabel, show i - 1 + 1 = i by omega, hl1]
        rfl
      have e2 : pathEdgeLabel df p i = normalizeLabel n := by
        rw [pathEdgeLabel, hl2]
        rfl
      rw [e1, e2]

/-! ## Claim theorems -/

/-- C1: for every pair of distinct stations of the Network lying in the same connected
component, the Get Route handler succeeds with a path whose first element is the source,
whose last element is the destination, whose consecutive elements are joined by an edge
(`isWalk`), and whose length is minimal among all walks joining the two stations — i.e.
length − 1 is the minimum hop-count distance. -/
theorem C1_shortest_route (df : List Row) (s t : String)
    (hs : s ∈ nodesList df) (ht : t ∈ nodesList df) (hne : s ≠ t)
    (hconn : ∃ p, isWalk df p s t) :
    ∃ p, getRoute df s t = RouteResult.success p ∧ isWalk df p s t ∧
      ∀ q, isWalk df q s t → p.length ≤ q.length := by
  obtain ⟨p, hspr, hpw, hmin⟩ := shortestPathRes_success df s t hs ht hconn
  exact ⟨p, by rw [getRoute, if_neg hne, hspr], hpw, hmin⟩

/-- Witness for C1 on the spec §8 scenario A-B-C-D. -/
theorem C1_shortest_route_witness :
    ("A" : String) ∈ nodesList sampleChain ∧ ("D" : String) ∈ nodesList sampleChain ∧
      ("A" : String) ≠ "D" ∧ (∃ p, isWalk sampleChain p "A" "D") ∧
      ∃ p, getRoute sampleChain "A" "D" = RouteResult.success p ∧
        isWalk sampleChain p "A" "D" ∧
        ∀ q, isWalk sampleChain q "A" "D" → p.length ≤ q.length :=
  ⟨by decide, by decide, by decide, ⟨["A", "B", "C", "D"], by decide⟩,
    C1_shortest_route sampleChain "A" "D" (by decide) (by decide) (by decide)
      ⟨["A", "B", "C", "D"], by decide⟩⟩

/-- C2: calling the handler with source = destination yields the SameStationError
outcome for every station and every dataset; since the guard precedes the `try` block,
the result does not depend on the Network and no shortest-path search is performed. -/
theorem C2_same_station (df : List Row) (A : String) :
    getRoute df A A = RouteResult.sameStation := by
  rw [getRoute, if_pos rfl]

/-- C3: for distinct stations of the Network lying in different connected components
(no walk joins them), the handler yields the NoPathError outcome — a distinguishable
error, not an empty or degenerate route. -/
theorem C3_no_path (df : List Row) (s t : String)
    (hs : s ∈ nodesList df) (ht : t ∈ nodesList df) (hne : s ≠ t)
    (hnw : ∀ p, ¬ isWalk df p s t) :
    getRoute df s t = RouteResult.noPath := by
  rw [getRoute, if_neg hne, shortestPathRes_noPath df s t hs ht hnw]

/-- Witness for C3 on the disconnected dataset {A-B, C-D}. -/
theorem C3_no_path_witness :
    ("A" : String) ∈ nodesList sampleDisc ∧ ("C" : String) ∈ nodesList sampleDisc ∧
      ("A" : String) ≠ "C" ∧ (∀ p, ¬ isWalk sampleDisc p "A" "C") ∧
      getRoute sampleDisc "A" "C" = RouteResult.noPath :=
  ⟨by decide, by decide, by decide,
    no_walk_of_reachIn_false sampleDisc "A" "C" (by decide),
    C3_no_path sampleDisc "A" "C" (by decide) (by decide) (by decide)
      (no_walk_of_reachIn_false sampleDisc "A" "C" (by decide))⟩

/-- C4 counterexample: with source "X" not a node of the Network, the handler outcome is
the *uncaught* `nx.NodeNotFound` exception (`except nx.NetworkXNoPath` does not catch
it), not a handled UnknownStationError surfaced to the user — the claim as stated is
false at this input. -/
theorem C4_unknown_station_cex :
    ("X" : String) ∉ nodesList sampleDisc ∧
      getRoute sampleDisc "X" "A" = RouteResult.uncaughtNodeNotFound :=
  ⟨by decide, by decide⟩

/-- C4 (amended): whenever source or destination is not a node of the Network and the
same-station guard does not fire, the shortest-path call raises `NodeNotFound`, which
the handler does not catch: the error escapes as an unhandled fault rather than being
surfaced as an UnknownStationError. -/
theorem C4_unknown_station_uncaught (df : List Row) (s t : String) (hne : s ≠ t)
    (h : s ∉ nodesList df ∨ t ∉ nodesList df) :
    getRoute df s t = RouteResult.uncaughtNodeNotFound := by
  rw [getRoute, if_neg hne, shortestPathRes_nodeNotFound df s t
    (fun hmem => h.elim (fun h1 => h1 hmem.1) (fun h2 => h2 hmem.2))]

/-- Witness for the amended C4. -/
theorem C4_unknown_station_witness :
    ("X" : String) ≠ "A" ∧
      (("X" : String) ∉ nodesList sampleChain ∨ ("A" : String) ∉ nodesList sampleChain) ∧
      getRoute sampleChain "X" "A" = RouteResult.uncaughtNodeNotFound :=
  ⟨by decide, Or.inl (by decide),
    C4_unknown_station_uncaught sampleChain "X" "A" (by decide) (Or.inl (by decide))⟩

/-- C5: for every successful route, the rendered stop count equals the path length minus
one, and the rendered estimated time equals that stop count times two minutes. -/
theorem C5_stops_and_time (df : List Row) (s t : String) (p : List String)
    (_h : getRoute df s t = RouteResult.success p) :
    totalStopsMsg p = p.length - 1 ∧ estTimeMsg p = totalStopsMsg p * 2 :=
  ⟨rfl, rfl⟩

/-- Witness for C5 on the spec §8 scenario (3 stops, 6 minutes). -/
theorem C5_stops_and_time_witness :
    getRoute sampleChain "A" "D" = RouteResult.success ["A", "B", "C", "D"] ∧
      (totalStopsMsg ["A", "B", "C", "D"] =
          (["A", "B", "C", "D"] : List String).length - 1 ∧
        estTimeMsg ["A", "B", "C", "D"] = totalStopsMsg ["A", "B", "C", "D"] * 2) ∧
      totalStopsMsg ["A", "B", "C", "D"] = 3 ∧ estTimeMsg ["A", "B", "C", "D"] = 6 :=
  ⟨by decide, C5_stops_and_time sampleChain "A" "D" ["A", "B", "C", "D"] (by decide),
    by decide, by decide⟩

theorem stringLe_trans (a b c : String) (hab : stringLe a b = true)
    (hbc : stringLe b c = true) : stringLe a c = true := by
  simp only [stringLe, decide_eq_true_eq] at hab hbc ⊢
  exact le_trans hab hbc

theorem stringLe_total (a b : String) : (stringLe a b || stringLe b a) = true := by
  simp only [stringLe, Bool.or_eq_true, decide_eq_true_eq]
  exact le_total a b

/-- C6: for every dataset, the station list is sorted, contains no duplicates, and its
members are exactly the values of the Station column together with those of the
Connected_Station column. -/
theorem C6_list_stations (df : List Row) :
    List.Sorted (fun a b : String => a ≤ b) (listStations df) ∧
      (listStations df).Nodup ∧
      ∀ x, x ∈ listStations df ↔
        (x ∈ df.map (fun r => r.station) ∨ x ∈ df.map (fun r => r.connected_station)) := by
  have hperm : (listStations df).Perm
      ((df.map (fun r => r.station)) ++ (df.map (fun r => r.connected_station))).dedup :=
    List.mergeSort_perm _ stringLe
  refine ⟨?_, ?_, fun x => ?_⟩
  · have hp := List.sorted_mergeSort stringLe_trans stringLe_total
      (((df.map (fun r => r.station)) ++ (df.map (fun r => r.connected_station))).dedup)
    exact hp.imp (fun h => by simpa [stringLe] using h)
  · rw [List.Perm.nodup_iff hperm]
    exact List.nodup_dedup _
  · constructor
    · intro hx
      have hm := (List.Perm.mem_iff hperm).mp hx
      rw [List.mem_dedup, List.mem_append] at hm
      exact hm
    · intro hx
      apply (List.Perm.mem_iff hperm).mpr
      rw [List.mem_dedup, List.mem_append]
      exact hx

/-- C7: on any path whose consecutive elements are edges of the Network (which every
path returned by the route finder is), the interchange loop emits, at each interior
index `i`, an entry `(p[i], before, after)` exactly when the normalized label resolved
for the edge `(p[i-1], p[i])` differs from the one for `(p[i], p[i+1])` — it computes
exactly the spec-side `specInterchanges`. In particular a path with no interior label
change yields the empty list, and a path with exactly one label boundary at `i₀` yields
exactly that one interchange, with the correct station and before/after labels. -/
theorem C7_interchange_detection (df : List Row) (p : List String)
    (hc : chainAdj df p = true) :
    interchanges df p = specInterchanges df p ∧
      ((∀ i, 1 ≤ i → i ≤ p.length - 2 →
          pathEdgeLabel df p (i - 1) = pathEdgeLabel df p i) →
        interchanges df p = []) ∧
      (∀ i₀, 1 ≤ i₀ → i₀ ≤ p.length - 2 →
        (∀ i, 1 ≤ i → i ≤ p.length - 2 →
          (pathEdgeLabel df p (i - 1) ≠ pathEdgeLabel df p i ↔ i = i₀)) →
        interchanges df p =
          [(p.getD i₀ "", pathEdgeLabel df p (i₀ - 1), pathEdgeLabel df p i₀)]) := by
  have hmem : ∀ i ∈ List.range' 1 (p.length - 2), 1 ≤ i ∧ i ≤ p.length - 2 ∧
      i + 1 < p.length := by
    intro i hi
    rw [List.mem_range'_1] at hi
    omega
  have hstep : ∀ i ∈ List.range' 1 (p.length - 2),
      interchangeStep df p i =
        (if pathEdgeLabel df p (i - 1) ≠ pathEdgeLabel df p i
         then some (p.getD i "", pathEdgeLabel df p (i - 1), pathEdgeLabel df p i)
         else none) := by
    intro i hi
    obtain ⟨h1, -, h2⟩ := hmem i hi
    exact interchangeStep_eq_spec df p i h1 h2 hc
  have hmain : interchanges df p = specInterchanges df p := by
    rw [interchanges, specInterchanges]
    exact List.filterMap_congr hstep
  refine ⟨hmain, ?_, ?_⟩
  · intro hall
    rw [hmain, specInterchanges, List.filterMap_eq_nil_iff]
    intro i hi
    obtain ⟨h1, h2, -⟩ := hmem i hi
    rw [if_neg (not_ne_iff.mpr (hall i h1 h2))]
  · intro i₀ h1₀ h2₀ hiff
    rw [hmain, specInterchanges]
    apply filterMap_eq_single _ _ i₀ _ (List.nodup_range' 1 (p.length - 2))
    · rw [List.mem_range'_1]
      omega
    · rw [if_pos ((hiff i₀ h1₀ h2₀).mpr rfl)]
    · intro x hx hxne
      obtain ⟨hx1, hx2, -⟩ := hmem x hx
      rw [if_neg (fun hne => hxne ((hiff x hx1 hx2).mp hne))]

/-- Witness for C7 on the spec §8 scenario: the path A-B-C-D crosses exactly one label
boundary (red→blue at C) and yields exactly one interchange. -/
theorem C7_interchange_detection_witness :
    chainAdj sampleChain ["A", "B", "C", "D"] = true ∧
      (interchanges sampleChain ["A", "B", "C", "D"] =
          specInterchanges sampleChain ["A", "B", "C", "D"] ∧
        ((∀ i, 1 ≤ i → i ≤ (["A", "B", "C", "D"] : List String).length - 2 →
            pathEdgeLabel sampleChain ["A", "B", "C", "D"] (i - 1) =
              pathEdgeLabel sampleChain ["A", "B", "C", "D"] i) →
          interchanges sampleChain ["A", "B", "C", "D"] = []) ∧
        (∀ i₀, 1 ≤ i₀ → i₀ ≤ (["A", "B", "C", "D"] : List String).length - 2 →
          (∀ i, 1 ≤ i → i ≤ (["A", "B", "C", "D"] : List String).length - 2 →
            (pathEdgeLabel sampleChain ["A", "B", "C", "D"] (i - 1) ≠
                pathEdgeLabel sampleChain ["A", "B", "C", "D"] i ↔ i = i₀)) →
          interchanges sampleChain ["A", "B", "C", "D"] =
            [(["A", "B", "C", "D"].getD i₀ "",
              pathEdgeLabel sampleChain ["A", "B", "C", "D"] (i₀ - 1),
              pathEdgeLabel sampleChain ["A", "B", "C", "D"] i₀)])) :=
  ⟨by decide, C7_interchange_detection sampleChain ["A", "B", "C", "D"] (by decide)⟩

/-- C8 counterexample: on the dataset [B-C blue, A-B red] the route from A to C is
[A, B, C]; the label displayed next to B is "Blue" — taken from the first dataset row
joining B to a member of the path — while the incoming edge (A, B) carries "Red". The
displayed label is not the incoming edge's label, refuting the claim as stated. -/
theorem C8_incoming_label_cex :
    getRoute sampleOut "A" "C" = RouteResult.success ["A", "B", "C"] ∧
      displayedLabel sampleOut ["A", "B", "C"] "B" = "Blue" ∧
      normalizeLabel ((pairLineLookup sampleOut "A" "B").getD "") = "Red" ∧
      displayedLabel sampleOut ["A", "B", "C"] "B" ≠
        normalizeLabel ((pairLineLookup sampleOut "A" "B").getD "") :=
  ⟨by decide, by decide, by decide, by decide⟩

/-- C8 (amended): for every station of the rendered path — the first station included —
the displayed label is the normalized Line of the *first dataset row* that joins the
station to some member of the path (in either orientation), or "N/A" when no such row
exists. It equals the incoming edge's label only when that row happens to come first in
the dataset. -/
theorem C8_displayed_label (df : List Row) (p : List String) (station : String) :
    displayedLabel df p station =
      (match df.find? (rowTouches p station) with
       | some r => normalizeLabel r.line
       | none => "N/A") := by
  rw [displayedLabel, lineInfo, List.head?_map, filter_head?_eq_find?]
  cases df.find? (rowTouches p station) with
  | some r => rfl
  | none => rfl

/-- C9 counterexample: with duplicate rows A-B "red" then A-B "blue", the stored edge
label is "Blue" (the later `add_edge` overwrites), but the annotator's pair lookup
resolves "Red" (the first dataframe row): the label the annotator resolves is *not* the
stored Network edge label, refuting the second half of the claim. -/
theorem C9_overwrite_cex :
    edgeLabel sampleDup "A" "B" = some "Blue" ∧
      normalizeLabel ((pairLineLookup sampleDup "A" "B").getD "") = "Red" ∧
      some (normalizeLabel ((pairLineLookup sampleDup "A" "B").getD "")) ≠
        edgeLabel sampleDup "A" "B" :=
  ⟨by decide, by decide, by decide⟩

/-- C9 (amended): the label stored on a Network edge is the normalized Line of the
*last* dataset row connecting the pair — later insertions overwrite earlier ones — while
the annotator's order-independent pair lookup resolves the Line of the *first* matching
dataset row; the two disagree exactly when duplicate rows carry different labels. -/
theorem C9_stored_vs_resolved (df : List Row) (u v : String) :
    edgeLabel df u v =
        (df.reverse.find? (rowMatches u v)).map (fun r => normalizeLabel r.line) ∧
      pairLineLookup df u v = (df.find? (rowMatches u v)).map (fun r => r.line) := by
  refine ⟨edgeLabel_eq_reverse_find? df u v, ?_⟩
  rw [pairLineLookup, List.head?_map, filter_head?_eq_find?]

/-- C10: every successfully returned path is a walk of the Network, so at each interior
index both pair lookups of the interchange loop find at least one dataset row — the
`len(...) > 0` guard never suppresses an interchange on a returned path. -/
theorem C10_guard_never_fires (df : List Row) (s t : String) (p : List String)
    (h : getRoute df s t = RouteResult.success p) (i : Nat)
    (h1 : 1 ≤ i) (h2 : i + 1 < p.length) :
    (pairLineLookup df (p.getD (i - 1) "") (p.getD i "")).isSome = true ∧
      (pairLineLookup df (p.getD i "") (p.getD (i + 1) "")).isSome = true := by
  obtain ⟨-, -, hc⟩ := getRoute_success_walk df s t p h
  constructor
  · apply pairLineLookup_isSome_of_adjB
    have := chainAdj_getD df p (i - 1) hc (by omega)
    rwa [show i - 1 + 1 = i by omega] at this
  · exact pairLineLookup_isSome_of_adjB df _ _ (chainAdj_getD df p i hc h2)

/-- Witness for C10 on the spec §8 scenario at interior index 1. -/
theorem C10_guard_never_fires_witness :
    getRoute sampleChain "A" "D" = RouteResult.success ["A", "B", "C", "D"] ∧
      1 ≤ 1 ∧ 1 + 1 < (["A", "B", "C", "D"] : List String).length ∧
      ((pairLineLookup sampleChain (["A", "B", "C", "D"].getD 0 "")
          (["A", "B", "C", "D"].getD 1 "")).isSome = true ∧
        (pairLineLookup sampleChain (["A", "B", "C", "D"].getD 1 "")
          (["A", "B", "C", "D"].getD 2 "")).isSome = true) :=
  ⟨by decide, le_refl 1, by decide,
    C10_guard_never_fires sampleChain "A" "D" ["A", "B", "C", "D"] (by decide) 1
      (le_refl 1) (by decide)⟩
